import Mathlib

/-!
Verification of the received-bounding-box partitioning core
(`src/partition/ReceivedBoundingBox.cpp`).

The C++ code works on `mesh::Mesh::BoundingBox`, a `std::vector` of
`std::pair<double, double>` holding one `(lower, upper)` interval per
spatial dimension.  We embed the coordinates as exact rationals `ℚ`;
the only floating-point values the code manipulates are small decimal
literals, `std::numeric_limits<double>::max()` and
`std::numeric_limits<double>::lowest()`, all of which are exactly
representable, and every operation the claims touch is a comparison,
`min`/`max`, addition or subtraction, so exact arithmetic is a faithful
model of the orders of magnitude involved.  `std::map` is embedded as an
association list kept sorted by key (matching its in-order iteration),
and the stateful methods become explicit state-passing functions whose
received messages are extra arguments and whose communication calls are
counted in an explicit operation counter.
-/

namespace ReceivedBB

/-- One bounding box: per dimension a pair `(first, second)` of interval
bounds, as in `mesh::Mesh::BoundingBox`. -/
abbrev Box : Type := List (ℚ × ℚ)

/-- `std::numeric_limits<double>::max()`, exactly: `(2^53 - 1) * 2^971`. -/
def DBL_MAX : ℚ := ((2 ^ 1024 - 2 ^ 971 : ℕ) : ℚ)

/-- `std::numeric_limits<double>::lowest()`, exactly `-DBL_MAX`. -/
def DBL_LOWEST : ℚ := -DBL_MAX

/-- The per-dimension sentinel the constructor and `prepareBoundingBox`
use: `std::make_pair(max, lowest)` (lines 21 and 151). -/
def sentinelPair : ℚ × ℚ := (DBL_MAX, DBL_LOWEST)

/-- `_bb` as the constructor builds it (line 21):
`_bb(mesh->getDimensions(), make_pair(max, lowest))`. -/
def initialBB (dims : ℕ) : Box := List.replicate dims sentinelPair

/-- The body of the loop of `overlapping` (line 140): dimension `i` is
separated iff both bounds of one box lie strictly below the lower bound
of the other. -/
def dimSeparated (c r : ℚ × ℚ) : Bool :=
  decide ((c.1 < r.1 ∧ c.2 < r.1) ∨ (r.1 < c.1 ∧ r.2 < c.1))

/-- `ReceivedBoundingBox::overlapping` (lines 130-145): the loop over
`i < _dimensions` returns `false` as soon as one dimension is separated,
else `true`.  Out-of-range access is undefined in the C++; we default it,
and every theorem that needs it carries length hypotheses. -/
def overlapping (dims : ℕ) (currentBB receivedBB : Box) : Bool :=
  (List.range dims).all fun i =>
    ! dimSeparated (currentBB.getD i ((0 : ℚ), (0 : ℚ))) (receivedBB.getD i ((0 : ℚ), (0 : ℚ)))

theorem dimSeparated_symm (c r : ℚ × ℚ) : dimSeparated c r = dimSeparated r c := by
  simp only [dimSeparated, decide_eq_decide]
  exact or_comm

theorem dimSeparated_self (c : ℚ × ℚ) : dimSeparated c c = false := by
  simp [dimSeparated]

theorem all_congr_aux {α : Type} (l : List α) (f g : α → Bool)
    (h : ∀ x ∈ l, f x = g x) : l.all f = l.all g := by
  induction l with
  | nil => rfl
  | cons a l ih =>
    simp only [List.all_cons]
    rw [h a (List.mem_cons_self a l), ih fun x hx => h x (List.mem_cons_of_mem a hx)]

theorem overlapping_symm_aux (dims : ℕ) (A B : Box) :
    overlapping dims A B = overlapping dims B A := by
  simp only [overlapping]
  apply all_congr_aux
  intro i _
  rw [dimSeparated_symm]

theorem overlapping_self_aux (dims : ℕ) (A : Box) :
    overlapping dims A A = true := by
  simp only [overlapping, List.all_eq_true]
  intro i _
  simp [dimSeparated_self]

/-- Claim C6: the overlap predicate is symmetric: for all bounding boxes
`A` and `B` (in particular those of the instance's dimension),
`overlapping(A, B) = overlapping(B, A)`. -/
theorem claim_c6_overlapping_symm (dims : ℕ) (A B : Box) :
    overlapping dims A B = overlapping dims B A :=
  overlapping_symm_aux dims A B

/-- Claim C7: the overlap predicate is reflexive on valid boxes: for every
box `A` of the instance's dimension with `lo ≤ hi` in each dimension
(including degenerate point boxes), `overlapping(A, A) = true`. -/
theorem claim_c7_overlapping_refl_valid (dims : ℕ) (A : Box)
    (hlen : A.length = dims) (hvalid : ∀ p ∈ A, p.1 ≤ p.2) :
    overlapping dims A A = true :=
  overlapping_self_aux dims A

/-- Witness for C7 at the degenerate point box `[[0, 0]]` in one dimension. -/
theorem claim_c7_witness :
    ([((0 : ℚ), (0 : ℚ))] : Box).length = 1 ∧ (∀ p ∈ ([((0 : ℚ), (0 : ℚ))] : Box), p.1 ≤ p.2) ∧
      overlapping 1 [((0 : ℚ), (0 : ℚ))] [((0 : ℚ), (0 : ℚ))] = true :=
  ⟨by decide, by decide,
    claim_c7_overlapping_refl_valid 1 [((0 : ℚ), (0 : ℚ))] (by decide) (by decide)⟩

/-- Claim C10: reflexivity of `overlapping` is unconditional — it holds for
every box of the instance's dimension, sentinel and inverted (`hi < lo`)
boxes included, because every comparison in the separation test is strict
and fails when the two arguments coincide. -/
theorem claim_c10_overlapping_refl_unconditional (dims : ℕ) (A : Box) :
    overlapping dims A A = true :=
  overlapping_self_aux dims A

/-- Claim C8: equality at an interval boundary counts as overlap (closed
intervals): for `D = 1`, the local box `[[0, 1]]` and the remote box
`[[1, 2]]` overlap. -/
theorem claim_c8_boundary_touch :
    overlapping 1 [((0 : ℚ), (1 : ℚ))] [((1 : ℚ), (2 : ℚ))] = true := by decide

/-- Claim C5: a sentinel box (`lo = DBL_MAX`, `hi = DBL_LOWEST` per
dimension — the code's rendering of the specification's `lo = +∞`,
`hi = -∞`) does not overlap any valid box, in either argument order.
A valid box here has `lo ≤ hi` per dimension and, modelling finiteness,
upper bounds strictly below `DBL_MAX`. -/
theorem claim_c5_sentinel_no_overlap (dims : ℕ) (B : Box)
    (hdims : 0 < dims) (hlen : B.length = dims)
    (hvalid : ∀ p ∈ B, p.1 ≤ p.2) (hfin : ∀ p ∈ B, p.2 < DBL_MAX) :
    overlapping dims (initialBB dims) B = false ∧
      overlapping dims B (initialBB dims) = false := by
  have hmem : B.getD 0 ((0 : ℚ), (0 : ℚ)) ∈ B := by
    have h0 : 0 < B.length := hlen ▸ hdims
    rw [List.getD_eq_getElem B _ h0]
    exact List.getElem_mem h0
  have hs : (initialBB dims).getD 0 ((0 : ℚ), (0 : ℚ)) = sentinelPair := by
    have h0 : 0 < (List.replicate dims sentinelPair).length := by simpa using hdims
    simp only [initialBB]
    rw [List.getD_eq_getElem _ _ h0]
    simp
  have hb1 : (B.getD 0 ((0 : ℚ), (0 : ℚ))).1 < DBL_MAX :=
    lt_of_le_of_lt (hvalid _ hmem) (hfin _ hmem)
  have hb2 : (B.getD 0 ((0 : ℚ), (0 : ℚ))).2 < DBL_MAX := hfin _ hmem
  have hsep1 : dimSeparated sentinelPair (B.getD 0 ((0 : ℚ), (0 : ℚ))) = true := by
    simp only [dimSeparated, sentinelPair, decide_eq_true_eq]
    exact Or.inr ⟨hb1, hb2⟩
  have hsep2 : dimSeparated (B.getD 0 ((0 : ℚ), (0 : ℚ))) sentinelPair = true := by
    rw [dimSeparated_symm]; exact hsep1
  constructor
  · simp only [overlapping, List.all_eq_false]
    exact ⟨0, List.mem_range.mpr hdims, by rw [hs, hsep1]; decide⟩
  · simp only [overlapping, List.all_eq_false]
    exact ⟨0, List.mem_range.mpr hdims, by rw [hs, hsep2]; decide⟩

set_option maxRecDepth 8000 in
/-- Witness for C5 at the valid box `[[0, 1]]` in one dimension. -/
theorem claim_c5_witness :
    0 < 1 ∧ ([((0 : ℚ), (1 : ℚ))] : Box).length = 1 ∧
      (∀ p ∈ ([((0 : ℚ), (1 : ℚ))] : Box), p.1 ≤ p.2) ∧
      (∀ p ∈ ([((0 : ℚ), (1 : ℚ))] : Box), p.2 < DBL_MAX) ∧
      (overlapping 1 (initialBB 1) [((0 : ℚ), (1 : ℚ))] = false ∧
        overlapping 1 [((0 : ℚ), (1 : ℚ))] (initialBB 1) = false) :=
  ⟨by decide, by decide, by decide, by decide,
    claim_c5_sentinel_no_overlap 1 [((0 : ℚ), (1 : ℚ))] (by decide) (by decide)
      (by decide) (by decide)⟩

/-- `std::vector::resize(n, v)`: truncate to `n` elements or pad with `v`
(line 151). -/
def vecResize {α : Type} (xs : List α) (n : ℕ) (v : α) : List α :=
  if n ≤ xs.length then xs.take n else xs ++ List.replicate (n - xs.length) v

/-- One dimension of the union loops of `prepareBoundingBox`
(lines 156-161 and 165-170): conditional assignment of the smaller lower
bound and the larger upper bound. -/
def bbUnionPair (bd od : ℚ × ℚ) : ℚ × ℚ :=
  (if bd.1 > od.1 then od.1 else bd.1, if bd.2 < od.2 then od.2 else bd.2)

/-- The whole union loop `for d < dims: _bb[d] := bbUnionPair (_bb[d], other[d])`,
as a `zipWith` (each index is written once, from its own index only). -/
def unionWith (bb other : Box) : Box := List.zipWith bbUnionPair bb other

/-- Lines 176-180: `maxSideLength`, the maximum of `1e-6` and every side
length of the merged box. -/
def maxSideLength (bb : Box) : ℚ :=
  bb.foldl (fun m p => max m (p.2 - p.1)) (1 / 1000000)

/-- `ReceivedBoundingBox::prepareBoundingBox` (lines 147-186): resize `_bb`
to the sentinel, union in the `_fromMapping` output-mesh box and the
`_toMapping` input-mesh box when attached, then dilate each dimension by
`safetyFactor * maxSideLength`.  The mapping accessors are modelled as
`Option Box` arguments. -/
def prepareBoundingBox (dims : ℕ) (safetyFactor : ℚ)
    (fromBB toBB : Option Box) (bb0 : Box) : Box :=
  let bb1 := vecResize bb0 dims sentinelPair
  let bb2 := match fromBB with
    | some otherBB => unionWith bb1 otherBB
    | none => bb1
  let bb3 := match toBB with
    | some otherBB => unionWith bb2 otherBB
    | none => bb2
  let msl := maxSideLength bb3
  bb3.map fun p => (p.1 - safetyFactor * msl, p.2 + safetyFactor * msl)

theorem DBL_MAX_pos : 0 < DBL_MAX := by
  rw [DBL_MAX]
  have h : (2 : ℕ) ^ 971 < 2 ^ 1024 := Nat.pow_lt_pow_right one_lt_two (by norm_num)
  exact_mod_cast Nat.sub_pos_of_lt h

theorem vecResize_of_length_eq {α : Type} (xs : List α) (n : ℕ) (v : α)
    (h : xs.length = n) : vecResize xs n v = xs := by
  subst h
  simp [vecResize]

theorem foldl_max_of_le (c : ℚ) (l : List (ℚ × ℚ))
    (h : ∀ p ∈ l, p.2 - p.1 ≤ c) :
    l.foldl (fun m p => max m (p.2 - p.1)) c = c := by
  induction l with
  | nil => rfl
  | cons a l ih =>
    simp only [List.foldl_cons]
    rw [max_eq_left (h a (List.mem_cons_self a l))]
    exact ih fun p hp => h p (List.mem_cons_of_mem a hp)

theorem maxSideLength_sentinel (dims : ℕ) :
    maxSideLength (List.replicate dims sentinelPair) = 1 / 1000000 := by
  apply foldl_max_of_le
  intro p hp
  rw [List.eq_of_mem_replicate hp]
  have := DBL_MAX_pos
  simp only [sentinelPair, DBL_LOWEST]
  linarith

theorem if_gt_min (a b : ℚ) : (if a > b then b else a) = min a b := by
  split_ifs with h
  · exact (min_eq_right h.le).symm
  · exact (min_eq_left (not_lt.mp h)).symm

theorem if_lt_max (a b : ℚ) : (if a < b then b else a) = max a b := by
  split_ifs with h
  · exact (max_eq_right h.le).symm
  · exact (max_eq_left (not_lt.mp h)).symm

theorem bbUnionPair_eq (bd od : ℚ × ℚ) :
    bbUnionPair bd od = (min bd.1 od.1, max bd.2 od.2) := by
  rw [bbUnionPair, if_gt_min, if_lt_max]

/-- Claim C3 helper: with no mapping attached, `prepareBoundingBox` keeps
the `(DBL_MAX, DBL_LOWEST)` sentinel and only dilates it by
`safetyFactor * 1e-6` per side, because the side lengths of the sentinel
are negative and the `1e-6` floor wins. -/
theorem prepare_no_mapping_eq (dims : ℕ) (sf : ℚ) :
    prepareBoundingBox dims sf none none (initialBB dims) =
      List.replicate dims (DBL_MAX - sf * (1 / 1000000), DBL_LOWEST + sf * (1 / 1000000)) := by
  simp only [prepareBoundingBox]
  rw [vecResize_of_length_eq _ _ _ (by simp [initialBB])]
  simp only [initialBB]
  rw [maxSideLength_sentinel, List.map_replicate]
  rfl

/-- Claim C3 counterexample: with no mapping attached and
`safetyFactor = 1`, the box `prepareBoundingBox` produces (for `D = 2`)
is not `[-1e-6, +1e-6]` per dimension: the sentinel bounds stay in place,
merely shifted by `1e-6` each. -/
theorem claim_c3_counterexample :
    prepareBoundingBox 2 1 none none (initialBB 2) ≠
      List.replicate 2 ((-(1 / 1000000) : ℚ), (1 / 1000000 : ℚ)) := by
  rw [prepare_no_mapping_eq 2 1]
  intro h
  simp only [List.replicate_succ, List.replicate_zero, List.cons.injEq, Prod.mk.injEq,
    and_true] at h
  have h1 : DBL_MAX - 1 * (1 / 1000000) = -(1 / 1000000) := h.1.1
  have := DBL_MAX_pos
  linarith

/-- Claim C3, amended: if no mapping is attached, then after
`prepareBoundingBox` with `safetyFactor = 1.0` the box in every dimension
is `[DBL_MAX - 1e-6, DBL_LOWEST + 1e-6]` — the empty sentinel shrunk
inward by the floored dilation, still an inverted box, not
`[-1e-6, +1e-6]`. -/
theorem claim_c3_no_mapping_box (dims : ℕ) :
    prepareBoundingBox dims 1 none none (initialBB dims) =
      List.replicate dims (DBL_MAX - 1 / 1000000, DBL_LOWEST + 1 / 1000000) := by
  rw [prepare_no_mapping_eq dims 1]
  norm_num

/-- The union of the attached-mapping boxes as the specification words it
(spec section 4.1: start from the empty sentinel, then take the
componentwise min of lower bounds and max of upper bounds of the attached
boxes).  This is the spec-side definition, to be compared with
`prepareBoundingBox`. -/
def specMergedBox (dims : ℕ) (fromBB toBB : Option Box) : Box :=
  (List.range dims).map fun d =>
    ((fromBB.toList ++ toBB.toList).foldl
        (fun m b => min m (b.getD d ((0 : ℚ), (0 : ℚ))).1) DBL_MAX,
      (fromBB.toList ++ toBB.toList).foldl
        (fun m b => max m (b.getD d ((0 : ℚ), (0 : ℚ))).2) DBL_LOWEST)

theorem unionWith_length (bb other : Box) :
    (unionWith bb other).length = min bb.length other.length := by
  simp [unionWith]

theorem unionWith_getElem (bb other : Box) (i : ℕ)
    (hb : i < bb.length) (ho : i < other.length)
    (h : i < (unionWith bb other).length) :
    (unionWith bb other)[i] = bbUnionPair bb[i] other[i] := by
  simp [unionWith]

theorem foldl_unionWith_pointwise (dims : ℕ) (cands : List Box)
    (hc : ∀ b ∈ cands, b.length = dims) :
    ∀ (bb : Box), bb.length = dims →
      cands.foldl unionWith bb = (List.range dims).map fun d =>
        (cands.foldl (fun m b => min m (b.getD d ((0 : ℚ), (0 : ℚ))).1) (bb.getD d ((0 : ℚ), (0 : ℚ))).1,
          cands.foldl (fun m b => max m (b.getD d ((0 : ℚ), (0 : ℚ))).2) (bb.getD d ((0 : ℚ), (0 : ℚ))).2) := by
  induction cands with
  | nil =>
    intro bb hbb
    simp only [List.foldl_nil]
    apply List.ext_getElem (by simpa using hbb)
    intro i h1 h2
    have hi : i < dims := by simpa using h2
    have hib : i < bb.length := by omega
    simp only [List.getElem_map, List.getElem_range]
    rw [List.getD_eq_getElem bb _ hib]
  | cons c cands ih =>
    intro bb hbb
    have hcl : c.length = dims := hc c (List.mem_cons_self c cands)
    have hul : (unionWith bb c).length = dims := by
      rw [unionWith_length, hbb, hcl, min_self]
    simp only [List.foldl_cons]
    rw [ih (fun b hb => hc b (List.mem_cons_of_mem c hb)) (unionWith bb c) hul]
    apply List.ext_getElem (by simp)
    intro i h1 h2
    have hi : i < dims := by simpa using h1
    simp only [List.getElem_map, List.getElem_range, Prod.mk.injEq]
    have hgu : ((unionWith bb c).getD i ((0 : ℚ), (0 : ℚ))) =
        (min (bb.getD i ((0 : ℚ), (0 : ℚ))).1 (c.getD i ((0 : ℚ), (0 : ℚ))).1,
          max (bb.getD i ((0 : ℚ), (0 : ℚ))).2 (c.getD i ((0 : ℚ), (0 : ℚ))).2) := by
      have hiu : i < (unionWith bb c).length := by omega
      rw [List.getD_eq_getElem _ _ hiu, unionWith_getElem bb c i (by omega) (by omega) hiu, bbUnionPair_eq]
      rw [List.getD_eq_getElem bb _ (by omega), List.getD_eq_getElem c _ (by omega)]
    rw [hgu]
    exact ⟨rfl, rfl⟩

/-- The merged box (`_bb` just before dilation) as a fold of `unionWith`
over the list of attached boxes. -/
def mergedBox (dims : ℕ) (fromBB toBB : Option Box) (bb0 : Box) : Box :=
  (fromBB.toList ++ toBB.toList).foldl unionWith (vecResize bb0 dims sentinelPair)

theorem prepare_merge_eq_foldl (dims : ℕ) (safetyFactor : ℚ)
    (fromBB toBB : Option Box) (bb0 : Box) :
    prepareBoundingBox dims safetyFactor fromBB toBB bb0 =
      (mergedBox dims fromBB toBB bb0).map fun p =>
        (p.1 - safetyFactor * maxSideLength (mergedBox dims fromBB toBB bb0),
          p.2 + safetyFactor * maxSideLength (mergedBox dims fromBB toBB bb0)) := by
  cases fromBB <;> cases toBB <;> rfl

/-- Claim C2 helper: for `safetyFactor = 0` the dilation vanishes
(`0 * maxSideLength = 0`), so `prepareBoundingBox` returns exactly the
componentwise union of the attached boxes. -/
theorem prepare_sf0_eq_specMergedBox (dims : ℕ) (fromBB toBB : Option Box)
    (hf : ∀ b ∈ fromBB, b.length = dims) (ht : ∀ b ∈ toBB, b.length = dims) :
    prepareBoundingBox dims 0 fromBB toBB (initialBB dims) =
      specMergedBox dims fromBB toBB := by
  rw [prepare_merge_eq_foldl]
  simp only [zero_mul, sub_zero, add_zero, mergedBox]
  rw [vecResize_of_length_eq _ _ _ (by simp [initialBB])]
  have hc : ∀ b ∈ fromBB.toList ++ toBB.toList, b.length = dims := by
    intro b hb
    rcases List.mem_append.mp hb with h | h
    · exact hf b (Option.mem_toList.mp h)
    · exact ht b (Option.mem_toList.mp h)
  rw [foldl_unionWith_pointwise dims _ hc (initialBB dims) (by simp [initialBB])]
  have hmap : ∀ l : Box, l.map (fun p : ℚ × ℚ => (p.1, p.2)) = l := by
    intro l
    simp
  rw [hmap]
  simp only [specMergedBox]
  apply List.map_congr_left
  intro d hd
  have hdd : d < dims := List.mem_range.mp hd
  have hg : (initialBB dims).getD d ((0 : ℚ), (0 : ℚ)) = sentinelPair := by
    have h0 : d < (List.replicate dims sentinelPair).length := by simpa using hdd
    simp only [initialBB]
    rw [List.getD_eq_getElem _ _ h0]
    simp
  rw [hg]
  rfl

theorem DBL_LOWEST_nonpos : DBL_LOWEST ≤ 0 := by
  rw [DBL_LOWEST]
  have := DBL_MAX_pos
  linarith

/-- Claim C2 counterexample: with `safetyFactor = 0` and a single attached
point box `[[0, 0]]` (all side lengths zero), the result is the undilated
`[[0, 0]]`, not the `1e-6`-dilated `[[-1e-6, 1e-6]]` the claim asserts for
the all-sides-zero case. -/
theorem claim_c2_counterexample :
    prepareBoundingBox 1 0 (some [((0 : ℚ), (0 : ℚ))]) none (initialBB 1) =
        [((0 : ℚ), (0 : ℚ))] ∧
      prepareBoundingBox 1 0 (some [((0 : ℚ), (0 : ℚ))]) none (initialBB 1) ≠
        [((-(1 / 1000000) : ℚ), (1 / 1000000 : ℚ))] := by
  have heval : prepareBoundingBox 1 0 (some [((0 : ℚ), (0 : ℚ))]) none (initialBB 1) =
      [((0 : ℚ), (0 : ℚ))] := by
    rw [prepare_sf0_eq_specMergedBox 1 _ _ (by simp) (by simp)]
    have hr : List.range 1 = [0] := rfl
    simp only [specMergedBox, Option.toList_some, Option.toList_none, List.append_nil, hr,
      List.map_cons, List.map_nil, List.foldl_cons, List.foldl_nil, List.getD_cons_zero]
    simp only [min_eq_right DBL_MAX_pos.le, max_eq_right DBL_LOWEST_nonpos]
  refine ⟨heval, ?_⟩
  rw [heval]
  intro h
  simp only [List.cons.injEq, Prod.mk.injEq, and_true] at h
  norm_num at h

/-- Claim C2, amended: for `safetyFactor = 0`, after `prepareBoundingBox`
the box `_bb` equals the componentwise union (min of lower bounds, max of
upper bounds) of the attached-mapping boxes with no dilation at all — the
dilation amount is `0 * maxSideLength = 0` regardless of the side lengths,
so the box is never dilated by `1e-6`, not even when all side lengths are
zero. -/
theorem claim_c2_sf0_union_undilated (dims : ℕ) (fromBB toBB : Option Box)
    (hf : ∀ b ∈ fromBB, b.length = dims) (ht : ∀ b ∈ toBB, b.length = dims) :
    prepareBoundingBox dims 0 fromBB toBB (initialBB dims) =
      specMergedBox dims fromBB toBB :=
  prepare_sf0_eq_specMergedBox dims fromBB toBB hf ht

/-- Witness for the amended C2 at `D = 1` with both mappings attached. -/
theorem claim_c2_witness :
    (∀ b ∈ (some [((0 : ℚ), (2 : ℚ))] : Option Box), b.length = 1) ∧
      (∀ b ∈ (some [((1 : ℚ), (5 : ℚ))] : Option Box), b.length = 1) ∧
      prepareBoundingBox 1 0 (some [((0 : ℚ), (2 : ℚ))]) (some [((1 : ℚ), (5 : ℚ))])
          (initialBB 1) =
        specMergedBox 1 (some [((0 : ℚ), (2 : ℚ))]) (some [((1 : ℚ), (5 : ℚ))]) :=
  ⟨by simp, by simp,
    claim_c2_sf0_union_undilated 1 (some [((0 : ℚ), (2 : ℚ))]) (some [((1 : ℚ), (5 : ℚ))])
      (by simp) (by simp)⟩

/-- `std::map` assignment `m[k] = v`, on an association list kept sorted
ascending by key (matching the map's in-order iteration). -/
def mapInsert {α : Type} (k : ℕ) (v : α) : List (ℕ × α) → List (ℕ × α)
  | [] => [(k, v)]
  | q :: rest =>
    if k < q.1 then (k, v) :: q :: rest
    else if k = q.1 then (k, v) :: rest
    else q :: mapInsert k v rest

/-- `std::map::find`-style lookup on the association list. -/
def lookupMap {α : Type} (k : ℕ) : List (ℕ × α) → Option α
  | [] => none
  | q :: rest => if q.1 = k then some q.2 else lookupMap k rest

/-- The feedback loop run by every rank (master: lines 73-78; slave:
lines 114-119): iterate `_remoteBBM` in key order and push the remote
rank when `overlapping(_bb, remoteBB)` holds.  Rank identifiers are
pushed as `ℤ` because the protocol's sentinel entry is `-1`. -/
def computeFeedback (dims : ℕ) (bb : Box) (remoteBBM : List (ℕ × Box)) : List ℤ :=
  remoteBBM.foldl (fun acc q => if overlapping dims bb q.2 then acc ++ [(q.1 : ℤ)] else acc) []

/-- The master's feedback-map construction (lines 65-91), with the message
each slave rank sent supplied as `slaveMsgs` (a slave sends its list length
and, only when non-zero, the list itself; the master replaces the `[-1]`
sentinel exactly in that case). -/
def masterFeedbackMapRecv (dims size : ℕ) (bb : Box) (remoteBBM : List (ℕ × Box))
    (slaveMsgs : ℕ → List ℤ) : List (ℕ × List ℤ) :=
  let fm0 : List (ℕ × List ℤ) :=
    (List.range' 1 (size - 1)).foldl (fun m r => mapInsert r [(-1 : ℤ)] m) []
  let feedback := computeFeedback dims bb remoteBBM
  let fm1 := if feedback.length ≠ 0 then mapInsert 0 feedback fm0 else fm0
  (List.range' 1 (size - 1)).foldl
    (fun m r => if (slaveMsgs r).length ≠ 0 then mapInsert r (slaveMsgs r) m else m) fm1

/-- Phase 2's collective outcome: the feedback map the master holds after
every slave rank `r` has run lines 114-126 (sending
`computeFeedback(bb_r, _remoteBBM)`) and the master has folded those
messages in (lines 83-91). -/
def masterFeedbackMap (dims size : ℕ) (bbs : ℕ → Box)
    (remoteBBM : List (ℕ × Box)) : List (ℕ × List ℤ) :=
  masterFeedbackMapRecv dims size (bbs 0) remoteBBM
    fun r => computeFeedback dims (bbs r) remoteBBM

/-- The section-4.3 reading of a feedback-map entry: a missing entry and
the `[-1]` sentinel both mean "no overlap". -/
def decodeFeedback : Option (List ℤ) → List ℤ
  | none => []
  | some l => if l = [(-1 : ℤ)] then [] else l

theorem decodeFeedback_none : decodeFeedback none = [] := rfl

theorem decodeFeedback_some (l : List ℤ) :
    decodeFeedback (some l) = if l = [(-1 : ℤ)] then [] else l := rfl

theorem lookupMap_mapInsert_self {α : Type} (k : ℕ) (v : α) (m : List (ℕ × α)) :
    lookupMap k (mapInsert k v m) = some v := by
  induction m with
  | nil => simp [mapInsert, lookupMap]
  | cons q rest ih =>
    by_cases h1 : k < q.1
    · simp [mapInsert, h1, lookupMap]
    · by_cases h2 : k = q.1
      · simp [mapInsert, h1, h2, lookupMap]
      · have hq : ¬ q.1 = k := fun h => h2 h.symm
        simp [mapInsert, h1, h2, lookupMap, hq, ih]

theorem lookupMap_mapInsert_ne {α : Type} (k r : ℕ) (v : α) (m : List (ℕ × α))
    (hkr : k ≠ r) : lookupMap k (mapInsert r v m) = lookupMap k m := by
  have hrk : ¬ r = k := Ne.symm hkr
  induction m with
  | nil => simp [mapInsert, lookupMap, hrk]
  | cons q rest ih =>
    by_cases h1 : r < q.1
    · simp [mapInsert, h1, lookupMap, hrk]
    · by_cases h2 : r = q.1
      · have hqk : ¬ q.1 = k := h2 ▸ hrk
        simp [mapInsert, h1, h2, lookupMap, hqk, hrk]
      · simp only [mapInsert, if_neg h1, if_neg h2, lookupMap]
        by_cases hq : q.1 = k
        · simp [hq]
        · simp [hq, ih]

theorem lookupMap_foldl_insertIf {α : Type} (p : ℕ → Prop) [DecidablePred p]
    (g : ℕ → α) (l : List ℕ) (m0 : List (ℕ × α)) (k : ℕ) :
    lookupMap k (l.foldl (fun m r => if p r then mapInsert r (g r) m else m) m0) =
      if k ∈ l ∧ p k then some (g k) else lookupMap k m0 := by
  induction l generalizing m0 with
  | nil => simp
  | cons a l ih =>
    simp only [List.foldl_cons]
    rw [ih]
    by_cases hmem : k ∈ l ∧ p k
    · rw [if_pos hmem, if_pos ⟨List.mem_cons_of_mem a hmem.1, hmem.2⟩]
    · rw [if_neg hmem]
      by_cases hak : k = a
      · subst hak
        by_cases hp : p k
        · rw [if_pos hp, if_pos ⟨List.mem_cons_self k l, hp⟩, lookupMap_mapInsert_self]
        · rw [if_neg hp, if_neg (fun h => hp h.2)]
      · by_cases hp : p a
        · rw [if_pos hp, lookupMap_mapInsert_ne k a _ _ hak,
            if_neg (fun h => hmem ⟨(List.mem_cons.mp h.1).resolve_left hak, h.2⟩)]
        · rw [if_neg hp, if_neg (fun h => hmem ⟨(List.mem_cons.mp h.1).resolve_left hak, h.2⟩)]

theorem lookupMap_foldl_insert {α : Type} (g : ℕ → α) (l : List ℕ)
    (m0 : List (ℕ × α)) (k : ℕ) :
    lookupMap k (l.foldl (fun m r => mapInsert r (g r) m) m0) =
      if k ∈ l then some (g k) else lookupMap k m0 := by
  have h := lookupMap_foldl_insertIf (fun _ => True) g l m0 k
  simpa using h

theorem computeFeedback_go (dims : ℕ) (bb : Box) (l : List (ℕ × Box)) :
    ∀ acc : List ℤ,
      l.foldl (fun acc q => if overlapping dims bb q.2 then acc ++ [(q.1 : ℤ)] else acc) acc =
        acc ++ (l.filter fun q => overlapping dims bb q.2).map fun q => ((q.1 : ℕ) : ℤ) := by
  induction l with
  | nil => intro acc; simp
  | cons a l ih =>
    intro acc
    by_cases h : overlapping dims bb a.2 = true
    · simp [h, ih]
    · simp [h, ih]

theorem computeFeedback_closed (dims : ℕ) (bb : Box) (l : List (ℕ × Box)) :
    computeFeedback dims bb l =
      (l.filter fun q => overlapping dims bb q.2).map fun q => ((q.1 : ℕ) : ℤ) := by
  rw [computeFeedback, computeFeedback_go dims bb l []]
  simp

theorem computeFeedback_range (dims n : ℕ) (bb : Box) (boxes : ℕ → Box) :
    computeFeedback dims bb ((List.range n).map fun q => (q, boxes q)) =
      ((List.range n).filter fun q => overlapping dims bb (boxes q)).map fun (q : ℕ) => (q : ℤ) := by
  rw [computeFeedback_closed, List.filter_map, List.map_map]
  rfl

theorem computeFeedback_range_ne_sentinel (dims n : ℕ) (bb : Box) (boxes : ℕ → Box) :
    computeFeedback dims bb ((List.range n).map fun q => (q, boxes q)) ≠ [(-1 : ℤ)] := by
  rw [computeFeedback_range]
  intro h
  have hm : (-1 : ℤ) ∈
      ((List.range n).filter fun q => overlapping dims bb (boxes q)).map fun q => ((q : ℕ) : ℤ) := by
    rw [h]
    exact List.mem_singleton.mpr rfl
  rcases List.mem_map.mp hm with ⟨q, _, hq⟩
  omega

/-- Claim C1: after Phase 2, for every local rank `r < size`, the entry of
the master's feedback map at `r` — read through the section-4.3 decoding,
where a missing entry and the `[-1]` sentinel both mean "empty" — is
exactly the list of remote ranks `q` of `_remoteBBM` whose box overlaps
`bb_r`, in ascending order of remote rank (`_remoteBBM` has keys
`0 .. n-1`, as Phase 1 builds it). -/
theorem claim_c1_feedback_correct (dims n size : ℕ) (bbs : ℕ → Box)
    (boxes : ℕ → Box) (r : ℕ) (hr : r < size) :
    decodeFeedback (lookupMap r
        (masterFeedbackMap dims size bbs ((List.range n).map fun q => (q, boxes q)))) =
      ((List.range n).filter fun q => overlapping dims (bbs r) (boxes q)).map
        fun (q : ℕ) => (q : ℤ) := by
  have hbbm := fun rr => computeFeedback_range dims n (bbs rr) boxes
  have hne := fun rr => computeFeedback_range_ne_sentinel dims n (bbs rr) boxes
  simp only [masterFeedbackMap, masterFeedbackMapRecv]
  rw [lookupMap_foldl_insertIf
    (fun rr => (computeFeedback dims (bbs rr) ((List.range n).map fun q => (q, boxes q))).length ≠ 0)
    (fun rr => computeFeedback dims (bbs rr) ((List.range n).map fun q => (q, boxes q)))
    (List.range' 1 (size - 1)) _ r]
  by_cases hmem : r ∈ List.range' 1 (size - 1) ∧
      (computeFeedback dims (bbs r) ((List.range n).map fun q => (q, boxes q))).length ≠ 0
  · rw [if_pos hmem, decodeFeedback_some, if_neg (hne r), hbbm r]
  · rw [if_neg hmem]
    by_cases hr0 : r = 0
    · subst hr0
      by_cases hlen : (computeFeedback dims (bbs 0) ((List.range n).map fun q => (q, boxes q))).length ≠ 0
      · rw [if_pos hlen, lookupMap_mapInsert_self, decodeFeedback_some, if_neg (hne 0), hbbm 0]
      · rw [if_neg hlen,
          lookupMap_foldl_insert (fun _ => [(-1 : ℤ)]) (List.range' 1 (size - 1)) [] 0]
        have h0 : (0 : ℕ) ∉ List.range' 1 (size - 1) := by
          intro hc
          exact absurd (List.mem_range'_1.mp hc).1 (by omega)
        rw [if_neg h0]
        have hnil : computeFeedback dims (bbs 0) ((List.range n).map fun q => (q, boxes q)) = [] :=
          List.length_eq_zero.mp (by omega)
        rw [show lookupMap 0 ([] : List (ℕ × List ℤ)) = none from rfl,
          decodeFeedback_none, ← hbbm 0, hnil]
    · have hr1 : 1 ≤ r := by omega
      have hmem1 : r ∈ List.range' 1 (size - 1) := List.mem_range'_1.mpr ⟨hr1, by omega⟩
      have hlen : ¬ (computeFeedback dims (bbs r) ((List.range n).map fun q => (q, boxes q))).length ≠ 0 :=
        fun hc => hmem ⟨hmem1, hc⟩
      have hnil : computeFeedback dims (bbs r) ((List.range n).map fun q => (q, boxes q)) = [] :=
        List.length_eq_zero.mp (by omega)
      have hl1 : ∀ fm0 : List (ℕ × List ℤ),
          lookupMap r (if (computeFeedback dims (bbs 0) ((List.range n).map fun q => (q, boxes q))).length ≠ 0
            then mapInsert 0 (computeFeedback dims (bbs 0) ((List.range n).map fun q => (q, boxes q))) fm0
            else fm0) = lookupMap r fm0 := by
        intro fm0
        split_ifs with h
        · exact lookupMap_mapInsert_ne r 0 _ fm0 hr0
        · rfl
      rw [hl1, lookupMap_foldl_insert (fun _ => [(-1 : ℤ)]) (List.range' 1 (size - 1)) [] r,
        if_pos hmem1]
      rw [decodeFeedback_some, if_pos rfl, ← hbbm r, hnil]

/-- The local boxes of scenario E2: master rank 0 has `[[0,1],[0,1]]`,
slave rank 1 has `[[2,3],[0,1]]`. -/
def bbsE2 : ℕ → Box := fun r =>
  if r = 0 then [((0 : ℚ), 1), (0, 1)] else [((2 : ℚ), 3), (0, 1)]

/-- The remote boxes of scenario E2: rank 0 has `[[10,11],[10,11]]`,
rank 1 has `[[20,21],[20,21]]` — no overlap with either local box. -/
def remoteBoxesE2 : ℕ → Box := fun q =>
  if q = 0 then [((10 : ℚ), 11), (10, 11)] else [((20 : ℚ), 21), (20, 21)]

/-- The feedback map the master constructs in scenario E2. -/
def feedbackMapE2 : List (ℕ × List ℤ) :=
  masterFeedbackMap 2 2 bbsE2 ((List.range 2).map fun q => (q, remoteBoxesE2 q))

/-- Witness for C1 in the setting of scenario E2, rank 1. -/
theorem claim_c1_witness :
    1 < 2 ∧
      decodeFeedback (lookupMap 1
          (masterFeedbackMap 2 2 bbsE2 ((List.range 2).map fun q => (q, remoteBoxesE2 q)))) =
        ((List.range 2).filter fun q => overlapping 2 (bbsE2 1) (remoteBoxesE2 q)).map
          fun (q : ℕ) => (q : ℤ) :=
  ⟨by decide, claim_c1_feedback_correct 2 2 2 bbsE2 remoteBoxesE2 1 (by decide)⟩

/-- Claim C4 counterexample: in scenario E2 the map the master constructs
is not `{0: [-1], 1: [-1]}` — key `0` is absent because the master only
inserts its own list when non-empty. -/
theorem claim_c4_counterexample :
    feedbackMapE2 ≠ [(0, [(-1 : ℤ)]), (1, [(-1 : ℤ)])] := by decide

/-- Claim C4, amended: in scenario E2 the feedback map the master
constructs is `{1: [-1]}` — the master's own (empty) list is not inserted
at key 0, slave rank 1 keeps its `[-1]` sentinel — so `|feedbackMap| = 1`
and the guarded send still fires (`|feedbackMap| != 0`). -/
theorem claim_c4_scenarioE2 :
    feedbackMapE2 = [(1, [(-1 : ℤ)])] ∧ feedbackMapE2.length = 1 ∧
      feedbackMapE2.length ≠ 0 := by decide

/-- The mutable fields of a `ReceivedBoundingBox` instance that the two
protocol phases touch. -/
structure PartitionState where
  bb : Box
  remoteBBM : List (ℕ × Box)
  remoteParComSize : ℕ
deriving DecidableEq

/-- Modelled from the spec: `com::CommunicateBoundingBox::receiveBoundingBoxMap`
(and its broadcast variant) is not under `src/`; per the wire format of
spec section 6 it delivers one box per received key, overwriting the
pre-initialized entries of the map in place. -/
def receiveBoundingBoxMap (received : List (ℕ × Box)) (m : List (ℕ × Box)) :
    List (ℕ × Box) :=
  received.foldl (fun acc q => mapInsert q.1 q.2 acc) m

/-- `ReceivedBoundingBox::communicateBoundingBox` (lines 27-46).  The guard
is `not _slaveMode`, so every non-slave rank — the master, but also a solo
rank — runs the receive branch: receive `_remoteParComSize`, pre-size
`_remoteBBM` with `(-1, -1)` placeholder boxes, then receive the map.  The
values delivered by the two m2n receives are arguments; the second
component of the result counts the receive operations performed. -/
def communicateBoundingBox (dims : ℕ) (slaveMode : Bool) (recvSize : ℕ)
    (recvBBM : List (ℕ × Box)) (s : PartitionState) : PartitionState × ℕ :=
  if !slaveMode then
    let initialBBv : Box := List.replicate dims ((-1 : ℚ), (-1 : ℚ))
    let bbm := (List.range recvSize).foldl (fun m r => mapInsert r initialBBv m) s.remoteBBM
    (⟨s.bb, receiveBoundingBoxMap recvBBM bbm, recvSize⟩, 2)
  else (s, 0)

/-- `ReceivedBoundingBox::computeBoundingBox` (lines 48-128) for one
process.  `prepareBoundingBox` always runs first; then the master branch
builds and sends the feedback map (the messages the slaves sent are the
`slaveMsgs` argument), the slave branch receives the broadcasts and sends
its feedback, and a rank that is neither master nor slave falls through
both branches.  The second component counts the communication operations
the process performed. -/
def computeBoundingBox (dims : ℕ) (masterMode slaveMode : Bool) (size : ℕ)
    (safetyFactor : ℚ) (fromBB toBB : Option Box) (slaveMsgs : ℕ → List ℤ)
    (bcastSize : ℕ) (bcastBBM : List (ℕ × Box)) (s : PartitionState) :
    PartitionState × ℕ :=
  let s1 : PartitionState :=
    ⟨prepareBoundingBox dims safetyFactor fromBB toBB s.bb, s.remoteBBM, s.remoteParComSize⟩
  if masterMode then
    let fm := masterFeedbackMapRecv dims size s1.bb s1.remoteBBM slaveMsgs
    let recvOps :=
      ((List.range' 1 (size - 1)).map fun r => if (slaveMsgs r).length ≠ 0 then 2 else 1).sum
    (s1, 2 + recvOps + (if fm.length ≠ 0 then 2 else 1))
  else if slaveMode then
    let initialBBv : Box := List.replicate dims ((-1 : ℚ), (-1 : ℚ))
    let bbm := (List.range bcastSize).foldl (fun m r => mapInsert r initialBBv m) s1.remoteBBM
    let s2 : PartitionState := ⟨s1.bb, receiveBoundingBoxMap bcastBBM bbm, bcastSize⟩
    let feedback := computeFeedback dims s2.bb s2.remoteBBM
    (s2, 2 + 1 + (if feedback.length ≠ 0 then 1 else 0))
  else (s1, 0)

/-- Claim C9 counterexample: on a solo rank (neither master mode nor slave
mode), `communicateBoundingBox` is not a no-op: its guard `not _slaveMode`
holds, so it performs the two m2n receives and overwrites
`_remoteParComSize` (here from 0 to 1). -/
theorem claim_c9_counterexample :
    (communicateBoundingBox 1 false 1 [(0, [((5 : ℚ), 6)])] ⟨initialBB 1, [], 0⟩).2 ≠ 0 ∧
      (communicateBoundingBox 1 false 1 [(0, [((5 : ℚ), 6)])]
          ⟨initialBB 1, [], 0⟩).1.remoteParComSize ≠
        (⟨initialBB 1, [], 0⟩ : PartitionState).remoteParComSize := by
  constructor
  · intro h
    exact absurd h (by decide)
  · intro h
    exact absurd h (by decide)

/-- Claim C9, amended: on a solo rank, `computeBoundingBox` performs no
communication and leaves `_remoteBBM` and `_remoteParComSize` unchanged,
but it still runs `prepareBoundingBox`, which rewrites `_bb`; and
`communicateBoundingBox` runs the full master-side receive branch (its
guard is `not _slaveMode`), performing two receives and setting
`_remoteParComSize` and `_remoteBBM` from the received values. -/
theorem claim_c9_solo_behavior (dims : ℕ) (size : ℕ) (safetyFactor : ℚ)
    (fromBB toBB : Option Box) (slaveMsgs : ℕ → List ℤ) (bcastSize : ℕ)
    (bcastBBM : List (ℕ × Box)) (recvSize : ℕ) (recvBBM : List (ℕ × Box))
    (s : PartitionState) :
    computeBoundingBox dims false false size safetyFactor fromBB toBB slaveMsgs
        bcastSize bcastBBM s =
      (⟨prepareBoundingBox dims safetyFactor fromBB toBB s.bb,
        s.remoteBBM, s.remoteParComSize⟩, 0) ∧
      communicateBoundingBox dims false recvSize recvBBM s =
        (⟨s.bb,
          receiveBoundingBoxMap recvBBM
            ((List.range recvSize).foldl
              (fun m r => mapInsert r (List.replicate dims ((-1 : ℚ), (-1 : ℚ))) m)
              s.remoteBBM),
          recvSize⟩, 2) :=
  ⟨rfl, rfl⟩

end ReceivedBB
